import Mathlib

/-!
Verification of the zksync-era consensus fetcher
(`core/lib/zksync_core/src/consensus/fetcher.rs`) and of the state-keeper
miniblock accumulator
(`core/lib/zksync_core/src/state_keeper/updates/miniblock_updates.rs`)
against their natural-language specification.

The Rust code is shallowly embedded:
* pure record updates become Lean functions on structures;
* the asynchronous producer/consumer pipeline of `Fetcher::fetch_blocks`
  becomes a small-step state machine driven by an explicit scheduler
  (a list of `FetchBlocks.Choice` values), so that all interleavings of
  task progress and out-of-order fetch completions are quantified over;
* retry loops (`Fetcher::fetch_block`, the genesis fork monitor) become
  recursions over the list of upstream responses observed at their await
  points, returning the outcome together with the list of sleep durations
  performed.
-/

/-! ## Model of `ctx::Error` and the result mapping of `run_p2p` / `run_centralized` -/

/-- Model of `zksync_concurrency::ctx::Error`: a scoped task either observes
cancellation of the shared context or fails with an internal error
(`anyhow::Error`, modelled by its message). -/
inductive CtxError where
  | canceled
  | internal (e : String)
deriving Repr, DecidableEq

/-- Model of `ctx::Result<α> = Result<α, ctx::Error>`. -/
abbrev CtxResult (α : Type) := Except CtxError α

/-- Embedding of the tail of `Fetcher::run_p2p` (fetcher.rs lines 86-89):
the result of the inner `scope::run!` is mapped so that success and
cancellation both become `Ok(())` while an internal error is returned to
the caller. -/
def run_p2p_outcome : CtxResult Unit → Except String Unit
  | .ok () => .ok ()
  | .error .canceled => .ok ()
  | .error (.internal e) => .error e

/-- Embedding of the tail of `Fetcher::run_centralized` (fetcher.rs lines
112-115): the same mapping as in `run_p2p`. -/
def run_centralized_outcome : CtxResult Unit → Except String Unit
  | .ok () => .ok ()
  | .error .canceled => .ok ()
  | .error (.internal e) => .error e

/-! ## Model of `Fetcher::fetch_block` (per-block fetch with retries) -/

/-- Fixed retry interval of `Fetcher::fetch_block` (fetcher.rs line 149):
`RETRY_INTERVAL = time::Duration::seconds(5)`, in seconds. -/
def RETRY_INTERVAL : Nat := 5

/-- One response observed by an iteration of the `fetch_block` retry loop,
i.e. one evaluation of `ctx.wait(self.client.fetch_l2_block(n, true)).await`
followed by the `try_into` conversion on success:
* `canceled`: the context was canceled at the await;
* `ok b`: `Ok(Some(block))` with a successful `FetchedBlock` conversion
  (the fetched block is modelled by its payload `b`);
* `okBad`: `Ok(Some(block))` whose `try_into` conversion failed;
* `notAvailable`: `Ok(None)`, the block is not yet available upstream;
* `transientErr`: `Err(err)` with `err.is_transient()`;
* `fatalErr`: any other `Err(err)`. -/
inductive FetchResp where
  | canceled
  | ok (b : Nat)
  | okBad
  | notAvailable
  | transientErr
  | fatalErr (msg : String)
deriving Repr, DecidableEq

/-- How `fetch_block` can end. -/
inductive FetchOutcome where
  | ok (b : Nat)
  | fatal
  | canceled
deriving Repr, DecidableEq

/-- Responses on which the `fetch_block` loop keeps retrying: `Ok(None)`
and transient client errors (fetcher.rs lines 155-156). -/
def respRetryable : FetchResp → Bool
  | .notAvailable => true
  | .transientErr => true
  | _ => false

/-- Outcome produced by a non-retryable response. -/
def respOutcome : FetchResp → FetchOutcome
  | .canceled => .canceled
  | .ok b => .ok b
  | _ => .fatal

/-- Embedding of the loop of `Fetcher::fetch_block` (fetcher.rs lines
151-162) over the list of responses it observes. Returns `none` while the
loop is still running after consuming the whole list, together with the
durations (in seconds) of the `ctx.sleep(RETRY_INTERVAL)` calls performed. -/
def fetch_block : List FetchResp → Option FetchOutcome × List Nat
  | [] => (none, [])
  | .canceled :: _ => (some .canceled, [])
  | .ok b :: _ => (some (.ok b), [])
  | .okBad :: _ => (some .fatal, [])
  | .fatalErr _ :: _ => (some .fatal, [])
  | .notAvailable :: rs =>
      let p := fetch_block rs
      (p.1, RETRY_INTERVAL :: p.2)
  | .transientErr :: rs =>
      let p := fetch_block rs
      (p.1, RETRY_INTERVAL :: p.2)

/-! ## Model of the genesis fork monitor spawned by `run_p2p` -/

/-- Sleep interval of the fork-monitor loop (fetcher.rs line 65), seconds. -/
def GENESIS_MONITOR_INTERVAL : Nat := 5

/-- One iteration's observation of the fork-monitor loop (fetcher.rs lines
56-66): the result of `self.fetch_genesis(ctx).await` (a genesis descriptor
is modelled by a comparable value), or cancellation observed at the
`ctx.sleep` await. A canceled `fetch_genesis` is swallowed by the
`if let Ok` like any other fetch error and the cancellation then surfaces
at the sleep, so `canceled` covers it. -/
inductive MonitorEv where
  | fetched (g : Nat)
  | failed
  | canceled
deriving Repr, DecidableEq

/-- How the fork-monitor loop can end. -/
inductive MonitorOutcome where
  | fatalMismatch (old new : Nat)
  | canceled
deriving Repr, DecidableEq

/-- Embedding of the fork-monitor loop body spawned in `Fetcher::run_p2p`
(fetcher.rs lines 54-67), with `old` the genesis captured at startup:
each iteration re-fetches the genesis, returns a fatal error iff a fetched
genesis differs from `old`, swallows fetch failures, and otherwise sleeps
`GENESIS_MONITOR_INTERVAL` before the next iteration. Returns `none` while
still looping, plus the list of completed sleep durations. -/
def fork_monitor (old : Nat) : List MonitorEv → Option MonitorOutcome × List Nat
  | [] => (none, [])
  | .canceled :: _ => (some .canceled, [])
  | .fetched g :: es =>
      if g ≠ old then (some (.fatalMismatch old g), [])
      else
        let p := fork_monitor old es
        (p.1, GENESIS_MONITOR_INTERVAL :: p.2)
  | .failed :: es =>
      let p := fork_monitor old es
      (p.1, GENESIS_MONITOR_INTERVAL :: p.2)

/-- Iterations of the fork monitor that do not end the loop: a failed fetch
or a fetch that returned the startup genesis unchanged. -/
def monitorBenign (old : Nat) (e : MonitorEv) : Prop :=
  e = .failed ∨ e = .fetched old

instance (old : Nat) (e : MonitorEv) : Decidable (monitorBenign old e) := by
  unfold monitorBenign; infer_instance

/-! ## Model of `MiniblockUpdates` and `extend_from_fictive_transaction` -/

namespace StateKeeper

/-- Opaque payload stand-ins for external `zksync_types` values. Only
identity (equality) matters to the properties proved here, so each is
modelled by `Nat`; `BlockGasCount` and `ExecutionMetrics` carry their
componentwise `+` as `Nat` addition. -/
abbrev VmEvent := Nat
abbrev StorageLogQuery := Nat
abbrev UserL2ToL1Log := Nat
abbrev SystemL2ToL1Log := Nat
abbrev TransactionExecutionResult := Nat
abbrev BlockGasCount := Nat
abbrev ExecutionMetrics := Nat
abbrev H256 := Nat
abbrev MiniblockNumber := Nat
abbrev ProtocolVersionId := Nat

/-- The parts of `VmExecutionResultAndLogs.logs` read by
`extend_from_fictive_transaction` (miniblock_updates.rs lines 70-75). -/
structure VmExecutionLogs where
  events : List VmEvent
  storage_logs : List StorageLogQuery
  user_l2_to_l1_logs : List UserL2ToL1Log
  system_l2_to_l1_logs : List SystemL2ToL1Log
deriving Repr, DecidableEq

/-- The fields of `multivm::interface::VmExecutionResultAndLogs` used by the
fictive-transaction path (only `logs`). -/
structure VmExecutionResultAndLogs where
  logs : VmExecutionLogs
deriving Repr, DecidableEq

/-- Embedding of `MiniblockUpdates` (miniblock_updates.rs lines 17-35);
`new_factory_deps` (a `HashMap`) is modelled as an association list. -/
structure MiniblockUpdates where
  executed_transactions : List TransactionExecutionResult
  events : List VmEvent
  storage_logs : List StorageLogQuery
  user_l2_to_l1_logs : List UserL2ToL1Log
  system_l2_to_l1_logs : List SystemL2ToL1Log
  new_factory_deps : List (H256 × List Nat)
  l1_gas_count : BlockGasCount
  block_execution_metrics : ExecutionMetrics
  txs_encoding_size : Nat
  payload_encoding_size : Nat
  timestamp : Nat
  number : MiniblockNumber
  prev_block_hash : H256
  virtual_blocks : Nat
  protocol_version : ProtocolVersionId
deriving Repr, DecidableEq

/-- Embedding of `MiniblockUpdates::extend_from_fictive_transaction`
(miniblock_updates.rs lines 64-79): extend the four log vectors from
`result.logs` and add the given gas count and execution metrics; every
other field is untouched. -/
def MiniblockUpdates.extend_from_fictive_transaction
    (u : MiniblockUpdates) (result : VmExecutionResultAndLogs)
    (l1_gas_count : BlockGasCount) (execution_metrics : ExecutionMetrics) :
    MiniblockUpdates :=
  { u with
    events := u.events ++ result.logs.events
    storage_logs := u.storage_logs ++ result.logs.storage_logs
    user_l2_to_l1_logs := u.user_l2_to_l1_logs ++ result.logs.user_l2_to_l1_logs
    system_l2_to_l1_logs := u.system_l2_to_l1_logs ++ result.logs.system_l2_to_l1_logs
    l1_gas_count := u.l1_gas_count + l1_gas_count
    block_execution_metrics := u.block_execution_metrics + execution_metrics }

end StateKeeper

/-! ## Model of `Fetcher::fetch_blocks` (fetcher.rs lines 166-201)

The body of `fetch_blocks` runs, inside one scope, a producer task and a
consumer loop connected by a bounded channel of request handles:

* producer (lines 177-186): while `end.map_or(true, |end| next < end)`,
  wait until the sync state reports upstream height at least `next`
  (the body of `SyncState::wait_for_main_node_block` is outside this
  repository; the spec states it suspends until the published height is at
  least the requested block number), spawn `fetch_block(next)` and send its
  handle into the channel (the send suspends while the channel holds
  `MAX_CONCURRENT_REQUESTS` handles), then increment `next`;
* consumer (lines 187-190): while `end.map_or(true, |end| queue.next() < end)`,
  receive the oldest handle, await (`join`) it, and append the fetched
  block to the payload queue, which advances the queue cursor by one;
* epilogue (lines 194-199): if anything was fetched, wait until the block
  `queue.next() - 1` is persisted before returning.

The machine below makes every await point a separate transition so that
all interleavings, and all orders of fetch completions, are schedules
(`List FetchBlocks.Choice`). Blocks and handles are represented by their
block numbers; a fetched block carries its requested number. Transitions
model the error-free executions; a fatal fetch or storage error aborts the
whole scope and is modelled separately (`fetch_block` above). -/

namespace FetchBlocks

/-- Channel capacity of `fetch_blocks` (fetcher.rs line 172). -/
def MAX_CONCURRENT_REQUESTS : Nat := 30

/-- Joint state of the producer, the channel, the consumer and the payload
queue during one run of `fetch_blocks`, plus the history needed to state
the claims:

* `next`: the producer's next block number to request (line 174);
* `sendPend`: a handle already spawned whose channel send has not yet
  completed (the argument of `send.send` on line 182);
* `chan`: the handles in the bounded channel, oldest first;
* `joinPend`: a handle received by the consumer whose `join` (and queue
  append) has not yet completed (line 188);
* `cursor`: the payload queue cursor `queue.next()`;
* `committed`: the blocks appended to the payload queue, in order;
* `height`: the latest upstream height published in the sync state;
* `issued`: history of issued fetches as pairs (block number, height read
  from the sync state when the wait for that block completed);
* `fin`: the block numbers whose spawned `fetch_block` task has resolved. -/
structure State where
  next : Nat
  sendPend : Option Nat
  chan : List Nat
  joinPend : Option Nat
  cursor : Nat
  committed : List Nat
  height : Nat
  issued : List (Nat × Nat)
  fin : List Nat
deriving Repr, DecidableEq

/-- The guard `end.map_or(true, |end| n < end)` of both loops (lines 179
and 187). -/
def withinEnd (endBound : Option Nat) (n : Nat) : Bool :=
  match endBound with
  | none => true
  | some e => decide (n < e)

/-- One scheduler choice: which task makes its next transition.

* `setHeight h`: the background `fetch_state_loop` publishes height `h`
  (the sync state is monotone, so only a value not below the current one
  is accepted);
* `spawnFetch`: the producer's wait for `height ≥ next` completes and it
  spawns `fetch_block(next)`, holding the handle for the channel send;
* `chanPush`: the producer's pending channel send completes (possible only
  while the channel holds fewer than `MAX_CONCURRENT_REQUESTS` handles);
* `fetchResolves n`: the spawned fetch task for block `n` resolves, in any
  order relative to other outstanding fetches;
* `chanPop`: the consumer receives the oldest handle from the channel;
* `joinCommit`: the consumer's `join` of its received handle completes
  (possible only once that fetch has resolved) and the block is appended
  to the payload queue. -/
inductive Choice where
  | setHeight (h : Nat)
  | spawnFetch
  | chanPush
  | fetchResolves (n : Nat)
  | chanPop
  | joinCommit
deriving Repr, DecidableEq

/-- One transition of the `fetch_blocks` machine: `none` when the chosen
task is blocked (its guard does not hold), otherwise the successor state. -/
def step (endBound : Option Nat) (s : State) : Choice → Option State
  | .setHeight h =>
      if s.height ≤ h then some { s with height := h } else none
  | .spawnFetch =>
      if s.sendPend = none ∧ withinEnd endBound s.next = true ∧ s.next ≤ s.height then
        some { s with
          sendPend := some s.next
          issued := s.issued ++ [(s.next, s.height)]
          next := s.next + 1 }
      else none
  | .chanPush =>
      match s.sendPend with
      | some n =>
          if s.chan.length < MAX_CONCURRENT_REQUESTS then
            some { s with chan := s.chan ++ [n], sendPend := none }
          else none
      | none => none
  | .fetchResolves n =>
      if n ∈ s.issued.map Prod.fst ∧ n ∉ s.fin then
        some { s with fin := s.fin ++ [n] }
      else none
  | .chanPop =>
      match s.chan with
      | [] => none
      | n :: rest =>
          if withinEnd endBound s.cursor = true ∧ s.joinPend = none then
            some { s with chan := rest, joinPend := some n }
          else none
  | .joinCommit =>
      match s.joinPend with
      | some n =>
          if n ∈ s.fin then
            some { s with
              joinPend := none
              committed := s.committed ++ [n]
              cursor := s.cursor + 1 }
          else none
      | none => none

/-- Initial state of `fetch_blocks` with `first = queue.next()` (line 173). -/
def init (first : Nat) : State :=
  { next := first, sendPend := none, chan := [], joinPend := none,
    cursor := first, committed := [], height := 0, issued := [], fin := [] }

/-- Run the machine under a schedule; choices whose task is blocked are
skipped (the scheduler simply does not advance a blocked task). -/
def run (endBound : Option Nat) (s : State) : List Choice → State
  | [] => s
  | c :: cs =>
      match step endBound s c with
      | some s2 => run endBound s2 cs
      | none => run endBound s cs

/-- The producer task has returned: its loop guard is false and no channel
send is pending. -/
def producerDone (endBound : Option Nat) (s : State) : Bool :=
  !withinEnd endBound s.next && s.sendPend.isNone

/-- The consumer loop has exited: its guard is false and no join/append is
pending. -/
def consumerDone (endBound : Option Nat) (s : State) : Bool :=
  !withinEnd endBound s.cursor && s.joinPend.isNone

/-- The scope of `fetch_blocks` returns `Ok` exactly when both the spawned
producer task and the consumer loop have finished. -/
def finished (endBound : Option Nat) (s : State) : Bool :=
  producerDone endBound s && consumerDone endBound s

/-- All issued block numbers, in issuance order, that the consumer has not
yet committed: the committed prefix removed from the pipeline. -/
def pipeline (s : State) : List Nat :=
  s.committed ++ s.joinPend.toList ++ s.chan ++ s.sendPend.toList

/-- Fetch requests issued but not yet received by the consumer: the handle
awaiting its channel send plus the channel contents. -/
def unconsumed (s : State) : Nat :=
  s.sendPend.toList.length + s.chan.length

/-- Fetch requests issued but not yet committed to the payload queue. -/
def inFlight (s : State) : Nat :=
  s.sendPend.toList.length + s.chan.length + s.joinPend.toList.length

/-- Embedding of the epilogue of `fetch_blocks` (fetcher.rs lines 194-199):
the block number passed to `store.wait_for_payload` before returning, or
`none` when the wait is skipped because nothing was fetched. -/
def persistTarget (first : Nat) (s : State) : Option Nat :=
  if first < s.cursor then some (s.cursor - 1) else none

/-- Invariant of the `fetch_blocks` machine, for initial cursor `first` and
bound `endBound`. -/
structure Inv (endBound : Option Nat) (first : Nat) (s : State) : Prop where
  pipe : pipeline s = List.range' first (s.next - first)
  next_ge : first ≤ s.next
  cursor_eq : s.cursor = first + s.committed.length
  chan_cap : s.chan.length ≤ MAX_CONCURRENT_REQUESTS
  issued_nums : s.issued.map Prod.fst = List.range' first (s.next - first)
  issued_hts : ∀ p ∈ s.issued, p.1 ≤ p.2
  next_bound : ∀ e, endBound = some e → s.next ≤ max first e
  joinPend_lt : ∀ e, endBound = some e → ∀ n, s.joinPend = some n → s.cursor < e
  cursor_bound : ∀ e, endBound = some e → s.cursor ≤ max first e
  fin_issued : ∀ n ∈ s.fin, n ∈ s.issued.map Prod.fst

end FetchBlocks

/-! ## Claim theorems -/

/-- C8: for every run of `run_p2p` and `run_centralized`, a scoped run that
ended on cancellation of the shared context returns `Ok(())`, a run that
ended with an internal error returns that error, and no other outcomes
exist. -/
theorem run_outcome_classification :
    (∀ e : String,
        run_p2p_outcome (Except.error (CtxError.internal e)) = Except.error e ∧
        run_centralized_outcome (Except.error (CtxError.internal e)) = Except.error e) ∧
    (run_p2p_outcome (Except.error CtxError.canceled) = Except.ok () ∧
     run_centralized_outcome (Except.error CtxError.canceled) = Except.ok ()) ∧
    (∀ r : CtxResult Unit, run_p2p_outcome r = run_centralized_outcome r) ∧
    (∀ r : CtxResult Unit,
        run_p2p_outcome r = Except.ok () ∨
        ∃ e, r = Except.error (CtxError.internal e) ∧ run_p2p_outcome r = Except.error e) := by
  refine ⟨fun e => ⟨rfl, rfl⟩, ⟨rfl, rfl⟩, ?_, ?_⟩
  · intro r
    rcases r with e | _
    · rcases e with _ | e <;> rfl
    · rfl
  · intro r
    rcases r with e | _
    · rcases e with _ | e
      · exact Or.inl rfl
      · exact Or.inr ⟨e, rfl, rfl⟩
    · exact Or.inl rfl

/-- Helper: `fetch_block` is still looping, with one 5-second sleep per
attempt, after any sequence of retryable responses. -/
theorem fetch_block_all_retryable (pre : List FetchResp)
    (h : ∀ r ∈ pre, respRetryable r = true) :
    fetch_block pre = (none, List.replicate pre.length RETRY_INTERVAL) := by
  induction pre with
  | nil => rfl
  | cons r rs ih =>
    have hr : respRetryable r = true := h r (List.mem_cons_self r rs)
    have hrs : ∀ x ∈ rs, respRetryable x = true := fun x hx => h x (List.mem_cons_of_mem r hx)
    cases r <;> simp [respRetryable] at hr <;>
      simp [fetch_block, ih hrs, List.replicate_succ]

/-- Helper: the first non-retryable response decides the outcome of
`fetch_block`, after one 5-second sleep per earlier retryable attempt. -/
theorem fetch_block_decisive (pre : List FetchResp) (r : FetchResp) (rs : List FetchResp)
    (h : ∀ x ∈ pre, respRetryable x = true) (hr : respRetryable r = false) :
    fetch_block (pre ++ r :: rs) =
      (some (respOutcome r), List.replicate pre.length RETRY_INTERVAL) := by
  induction pre with
  | nil =>
    cases r <;> simp [respRetryable] at hr <;> simp [fetch_block, respOutcome]
  | cons x xs ih =>
    have hx : respRetryable x = true := h x (List.mem_cons_self x xs)
    have hxs : ∀ y ∈ xs, respRetryable y = true := fun y hy => h y (List.mem_cons_of_mem x hy)
    cases x <;> simp [respRetryable] at hx <;>
      simp [fetch_block, ih hxs, List.replicate_succ]

/-- C6: `fetch_block(n)` keeps retrying with a fixed 5-second sleep and no
retry limit while it sees `Ok(None)` or transient errors, and returns
exactly when a non-retryable response occurs: a block (success), any other
client error (fatal), or cancellation. -/
theorem fetch_block_retry_policy :
    (∀ pre : List FetchResp, (∀ r ∈ pre, respRetryable r = true) →
        fetch_block pre = (none, List.replicate pre.length RETRY_INTERVAL)) ∧
    (∀ (pre : List FetchResp) (r : FetchResp) (rs : List FetchResp),
        (∀ x ∈ pre, respRetryable x = true) → respRetryable r = false →
        fetch_block (pre ++ r :: rs) =
          (some (respOutcome r), List.replicate pre.length RETRY_INTERVAL)) ∧
    RETRY_INTERVAL = 5 ∧
    respOutcome (.ok 0) = .ok 0 ∧ respOutcome (.fatalErr "") = .fatal ∧
    respOutcome .canceled = .canceled :=
  ⟨fetch_block_all_retryable, fetch_block_decisive, rfl, rfl, rfl, rfl⟩

/-- C6 witness: after the retryable responses `Ok(None)` then a transient
error, a successful response ends the loop with the block, having slept 5
seconds twice. -/
theorem fetch_block_retry_policy_witness :
    (∀ r ∈ [FetchResp.notAvailable, FetchResp.transientErr], respRetryable r = true) ∧
    respRetryable (FetchResp.ok 7) = false ∧
    fetch_block ([FetchResp.notAvailable, FetchResp.transientErr] ++ [FetchResp.ok 7]) =
      (some (FetchOutcome.ok 7), [5, 5]) := by
  refine ⟨by decide, rfl, ?_⟩
  have h := fetch_block_retry_policy.2.1 [FetchResp.notAvailable, FetchResp.transientErr]
    (FetchResp.ok 7) [] (by decide) rfl
  simpa [respOutcome, RETRY_INTERVAL] using h

/-- Helper: the fork monitor is still looping, sleeping 5 seconds per
iteration, while every fetch either fails or returns the startup genesis. -/
theorem fork_monitor_benign (old : Nat) (es : List MonitorEv)
    (h : ∀ e ∈ es, monitorBenign old e) :
    fork_monitor old es = (none, List.replicate es.length GENESIS_MONITOR_INTERVAL) := by
  induction es with
  | nil => rfl
  | cons e rest ih =>
    have he : monitorBenign old e := h e (List.mem_cons_self e rest)
    have hrest : ∀ x ∈ rest, monitorBenign old x := fun x hx => h x (List.mem_cons_of_mem e hx)
    rcases he with he | he <;> subst he <;>
      simp [fork_monitor, ih hrest, List.replicate_succ]

/-- Helper: the first fetched genesis differing from the startup value ends
the fork monitor with a fatal mismatch, before the sleep that iteration. -/
theorem fork_monitor_mismatch (old : Nat) (pre : List MonitorEv) (g : Nat)
    (es : List MonitorEv) (h : ∀ e ∈ pre, monitorBenign old e) (hg : g ≠ old) :
    fork_monitor old (pre ++ .fetched g :: es) =
      (some (.fatalMismatch old g), List.replicate pre.length GENESIS_MONITOR_INTERVAL) := by
  induction pre with
  | nil => simp [fork_monitor, hg]
  | cons e rest ih =>
    have he : monitorBenign old e := h e (List.mem_cons_self e rest)
    have hrest : ∀ x ∈ rest, monitorBenign old x := fun x hx => h x (List.mem_cons_of_mem e hx)
    rcases he with he | he <;> subst he <;>
      simp [fork_monitor, ih hrest, List.replicate_succ]

/-- C7: the fork monitor re-fetches the genesis on a 5-second period and
returns a fatal error exactly when a successfully fetched descriptor
differs from the startup value; fetch failures are swallowed and the loop
keeps retrying, so a fetch failure is never fatal. -/
theorem fork_monitor_policy :
    (∀ (old : Nat) (pre : List MonitorEv) (g : Nat) (es : List MonitorEv),
        (∀ e ∈ pre, monitorBenign old e) → g ≠ old →
        fork_monitor old (pre ++ .fetched g :: es) =
          (some (.fatalMismatch old g),
           List.replicate pre.length GENESIS_MONITOR_INTERVAL)) ∧
    (∀ (old : Nat) (es : List MonitorEv), (∀ e ∈ es, monitorBenign old e) →
        fork_monitor old es = (none, List.replicate es.length GENESIS_MONITOR_INTERVAL)) ∧
    GENESIS_MONITOR_INTERVAL = 5 :=
  ⟨fork_monitor_mismatch, fork_monitor_benign, rfl⟩

/-- C7 witness: with startup genesis `0`, after a failed fetch and a fetch
returning `0` (both swallowed, each followed by a 5-second sleep), a fetch
returning `1` ends the monitor with a fatal mismatch. -/
theorem fork_monitor_policy_witness :
    (∀ e ∈ [MonitorEv.failed, MonitorEv.fetched 0], monitorBenign 0 e) ∧
    (1 : Nat) ≠ 0 ∧
    fork_monitor 0 ([MonitorEv.failed, MonitorEv.fetched 0] ++ MonitorEv.fetched 1 :: []) =
      (some (MonitorOutcome.fatalMismatch 0 1), [5, 5]) := by
  refine ⟨by decide, by decide, ?_⟩
  have h := fork_monitor_policy.1 0 [MonitorEv.failed, MonitorEv.fetched 0] 1 []
    (by decide) (by decide)
  simpa [GENESIS_MONITOR_INTERVAL] using h

/-- C10: `extend_from_fictive_transaction` only extends the four log
vectors by exactly the logs of the given execution result and adds the
given gas count and metrics; `executed_transactions`, `new_factory_deps`,
`txs_encoding_size`, `payload_encoding_size`, `timestamp`, `number`,
`prev_block_hash`, `virtual_blocks` and `protocol_version` are unchanged. -/
theorem extend_from_fictive_transaction_frame
    (u : StateKeeper.MiniblockUpdates) (result : StateKeeper.VmExecutionResultAndLogs)
    (g : StateKeeper.BlockGasCount) (m : StateKeeper.ExecutionMetrics) :
    (u.extend_from_fictive_transaction result g m).events = u.events ++ result.logs.events ∧
    (u.extend_from_fictive_transaction result g m).storage_logs
      = u.storage_logs ++ result.logs.storage_logs ∧
    (u.extend_from_fictive_transaction result g m).user_l2_to_l1_logs
      = u.user_l2_to_l1_logs ++ result.logs.user_l2_to_l1_logs ∧
    (u.extend_from_fictive_transaction result g m).system_l2_to_l1_logs
      = u.system_l2_to_l1_logs ++ result.logs.system_l2_to_l1_logs ∧
    (u.extend_from_fictive_transaction result g m).l1_gas_count = u.l1_gas_count + g ∧
    (u.extend_from_fictive_transaction result g m).block_execution_metrics
      = u.block_execution_metrics + m ∧
    (u.extend_from_fictive_transaction result g m).executed_transactions
      = u.executed_transactions ∧
    (u.extend_from_fictive_transaction result g m).new_factory_deps = u.new_factory_deps ∧
    (u.extend_from_fictive_transaction result g m).txs_encoding_size = u.txs_encoding_size ∧
    (u.extend_from_fictive_transaction result g m).payload_encoding_size
      = u.payload_encoding_size ∧
    (u.extend_from_fictive_transaction result g m).timestamp = u.timestamp ∧
    (u.extend_from_fictive_transaction result g m).number = u.number ∧
    (u.extend_from_fictive_transaction result g m).prev_block_hash = u.prev_block_hash ∧
    (u.extend_from_fictive_transaction result g m).virtual_blocks = u.virtual_blocks ∧
    (u.extend_from_fictive_transaction result g m).protocol_version = u.protocol_version := by
  refine ⟨rfl, rfl, rfl, rfl, rfl, rfl, rfl, rfl, rfl, rfl, rfl, rfl, rfl, rfl, rfl⟩

namespace FetchBlocks

/-- Helper: appending the next number extends an initial-segment range. -/
theorem range'_snoc {first n : Nat} (h : first ≤ n) :
    List.range' first (n - first) ++ [n] = List.range' first (n + 1 - first) := by
  have h1 : n + 1 - first = (n - first) + 1 := by omega
  have h2 : first + (n - first) = n := by omega
  rw [h1, List.range'_1_concat, h2]

/-- Helper: the bounded loop guard, unfolded. -/
theorem withinEnd_some_iff {e n : Nat} : withinEnd (some e) n = true ↔ n < e := by
  simp [withinEnd]

/-- Helper: the unbounded loop guard always holds. -/
theorem withinEnd_none (n : Nat) : withinEnd none n = true := rfl
/-- The invariant is preserved by every enabled transition. -/
theorem step_inv {endBound : Option Nat} {first : Nat} {s s2 : State} {c : Choice}
    (hinv : Inv endBound first s) (hstep : step endBound s c = some s2) :
    Inv endBound first s2 := by
  obtain ⟨pipe, next_ge, cursor_eq, chan_cap, issued_nums, issued_hts,
    next_bound, joinPend_lt, cursor_bound, fin_issued⟩ := hinv
  cases c with
  | setHeight h =>
    simp only [step] at hstep
    split at hstep
    · injection hstep with h2
      subst h2
      exact ⟨pipe, next_ge, cursor_eq, chan_cap, issued_nums, issued_hts,
        next_bound, joinPend_lt, cursor_bound, fin_issued⟩
    · exact Option.noConfusion hstep
  | spawnFetch =>
    simp only [step] at hstep
    split at hstep
    next hguard =>
      obtain ⟨hsp, hwin, hht⟩ := hguard
      injection hstep with h2
      subst h2
      refine ⟨?_, ?_, cursor_eq, chan_cap, ?_, ?_, ?_, joinPend_lt, cursor_bound, ?_⟩
      · show s.committed ++ s.joinPend.toList ++ s.chan ++ [s.next]
          = List.range' first (s.next + 1 - first)
        have hps : pipeline s = s.committed ++ s.joinPend.toList ++ s.chan := by
          simp [pipeline, hsp]
        rw [← range'_snoc next_ge, ← pipe, hps]
      · show first ≤ s.next + 1
        omega
      · show (s.issued ++ [(s.next, s.height)]).map Prod.fst
          = List.range' first (s.next + 1 - first)
        rw [List.map_append, issued_nums]
        simpa using range'_snoc next_ge
      · intro p hp
        rcases List.mem_append.mp hp with hp | hp
        · exact issued_hts p hp
        · simp at hp
          subst hp
          exact hht
      · intro e he
        have h1 : s.next < e := withinEnd_some_iff.mp (he ▸ hwin)
        have h2 := le_max_right first e
        show s.next + 1 ≤ max first e
        omega
      · intro n hn
        have h3 := fin_issued n hn
        show n ∈ (s.issued ++ [(s.next, s.height)]).map Prod.fst
        rw [List.map_append]
        exact List.mem_append_left _ h3
    next => exact Option.noConfusion hstep
  | chanPush =>
    simp only [step] at hstep
    split at hstep
    next n hsp =>
      split at hstep
      next hlen =>
        injection hstep with h2
        subst h2
        refine ⟨?_, next_ge, cursor_eq, ?_, issued_nums, issued_hts,
          next_bound, joinPend_lt, cursor_bound, fin_issued⟩
        · show s.committed ++ s.joinPend.toList ++ (s.chan ++ [n]) ++ ([] : List Nat)
            = List.range' first (s.next - first)
          have hps : pipeline s = s.committed ++ s.joinPend.toList ++ s.chan ++ [n] := by
            simp [pipeline, hsp]
          rw [← pipe, hps]
          simp
        · show (s.chan ++ [n]).length ≤ MAX_CONCURRENT_REQUESTS
          simp only [List.length_append, List.length_singleton]
          omega
      next => exact Option.noConfusion hstep
    next => exact Option.noConfusion hstep
  | fetchResolves n =>
    simp only [step] at hstep
    split at hstep
    next hguard =>
      injection hstep with h2
      subst h2
      refine ⟨pipe, next_ge, cursor_eq, chan_cap, issued_nums, issued_hts,
        next_bound, joinPend_lt, cursor_bound, ?_⟩
      intro m hm
      rcases List.mem_append.mp hm with hm | hm
      · exact fin_issued m hm
      · simp at hm
        subst hm
        exact hguard.1
    next => exact Option.noConfusion hstep
  | chanPop =>
    simp only [step] at hstep
    split at hstep
    next hch => exact Option.noConfusion hstep
    next n rest hch =>
      split at hstep
      next hguard =>
        obtain ⟨hwin, hjp⟩ := hguard
        injection hstep with h2
        subst h2
        refine ⟨?_, next_ge, cursor_eq, ?_, issued_nums, issued_hts,
          next_bound, ?_, cursor_bound, fin_issued⟩
        · show s.committed ++ [n] ++ rest ++ s.sendPend.toList
            = List.range' first (s.next - first)
          have hps : pipeline s = s.committed ++ ([n] ++ (rest ++ s.sendPend.toList)) := by
            simp [pipeline, hjp, hch]
          rw [← pipe, hps]
          simp
        · show rest.length ≤ MAX_CONCURRENT_REQUESTS
          rw [hch] at chan_cap
          simp only [List.length_cons] at chan_cap
          omega
        · intro e he m hm
          exact withinEnd_some_iff.mp (he ▸ hwin)
      next => exact Option.noConfusion hstep
  | joinCommit =>
    simp only [step] at hstep
    split at hstep
    next n hjp =>
      split at hstep
      next hfin =>
        injection hstep with h2
        subst h2
        refine ⟨?_, next_ge, ?_, chan_cap, issued_nums, issued_hts,
          next_bound, ?_, ?_, fin_issued⟩
        · show s.committed ++ [n] ++ ([] : List Nat) ++ s.chan ++ s.sendPend.toList
            = List.range' first (s.next - first)
          have hps : pipeline s = s.committed ++ [n] ++ ([] : List Nat) ++ s.chan
              ++ s.sendPend.toList := by
            simp [pipeline, hjp]
          rw [← pipe, hps]
        · show s.cursor + 1 = first + (s.committed ++ [n]).length
          simp only [List.length_append, List.length_singleton]
          omega
        · intro e he m hm
          exact Option.noConfusion hm
        · intro e he
          have h1 : s.cursor < e := joinPend_lt e he n hjp
          have h2 := le_max_right first e
          show s.cursor + 1 ≤ max first e
          omega
      next => exact Option.noConfusion hstep
    next => exact Option.noConfusion hstep

/-- The initial state satisfies the invariant. -/
theorem init_inv (endBound : Option Nat) (first : Nat) : Inv endBound first (init first) := by
  refine ⟨?_, le_refl _, ?_, ?_, ?_, ?_, ?_, ?_, ?_, ?_⟩ <;>
    simp [init, pipeline, MAX_CONCURRENT_REQUESTS, le_max_left]

/-- The invariant holds after running any schedule from an invariant state. -/
theorem run_inv {endBound : Option Nat} {first : Nat} (s : State)
    (hinv : Inv endBound first s) (cs : List Choice) :
    Inv endBound first (run endBound s cs) := by
  induction cs generalizing s with
  | nil => exact hinv
  | cons c cs ih =>
    cases hstep : step endBound s c with
    | none =>
      simp only [run, hstep]
      exact ih s hinv
    | some s2 =>
      simp only [run, hstep]
      exact ih s2 (step_inv hinv hstep)

/-- Every state reachable from the initial state satisfies the invariant. -/
theorem reach_inv (endBound : Option Nat) (first : Nat) (cs : List Choice) :
    Inv endBound first (run endBound (init first) cs) :=
  run_inv (init first) (init_inv endBound first) cs

/-- Running a concatenated schedule runs the two parts in sequence. -/
theorem run_append (endBound : Option Nat) (s : State) (cs ds : List Choice) :
    run endBound s (cs ++ ds) = run endBound (run endBound s cs) ds := by
  induction cs generalizing s with
  | nil => rfl
  | cons c cs ih =>
    cases hstep : step endBound s c with
    | none => simp only [List.cons_append, run, hstep]; exact ih _
    | some s2 => simp only [List.cons_append, run, hstep]; exact ih _

/-- In any invariant state, the committed blocks are exactly the initial
segment of block numbers of their own length starting at `first`. -/
theorem committed_range {endBound : Option Nat} {first : Nat} {s : State}
    (h : Inv endBound first s) :
    s.committed = List.range' first s.committed.length := by
  have hp : List.range' first (s.next - first)
      = s.committed ++ (s.joinPend.toList ++ (s.chan ++ s.sendPend.toList)) := by
    rw [← h.pipe]
    simp [pipeline]
  obtain ⟨k, hk, hc, _⟩ := List.range'_eq_append_iff.mp hp
  have hkl : k = s.committed.length := by
    have := congrArg List.length hc
    simpa using this.symm
  exact hkl ▸ hc

/-- In any invariant state, the total number of issued fetches equals the
pipeline contents plus the committed blocks. -/
theorem pipe_length {endBound : Option Nat} {first : Nat} {s : State}
    (h : Inv endBound first s) :
    s.committed.length + s.joinPend.toList.length + s.chan.length
      + s.sendPend.toList.length = s.next - first := by
  have h1 := congrArg List.length h.pipe
  simp [pipeline] at h1
  omega

/-- The queue cursor never passes the producer. -/
theorem cursor_le_next {endBound : Option Nat} {first : Nat} {s : State}
    (h : Inv endBound first s) : s.cursor ≤ s.next := by
  have h1 := pipe_length h
  have h2 := h.cursor_eq
  have h3 := h.next_ge
  omega

/-- In any invariant state, the issuance history (by block number) is the
committed prefix followed by the still-uncommitted issued blocks. -/
theorem issued_split {endBound : Option Nat} {first : Nat} {s : State}
    (h : Inv endBound first s) :
    s.issued.map Prod.fst
      = s.committed ++ List.range' s.cursor (s.next - s.cursor) := by
  have h1 := h.cursor_eq
  have h2 := cursor_le_next h
  have h3 := h.next_ge
  have hc : s.committed = List.range' first (s.cursor - first) := by
    rw [committed_range h]
    congr 1
    omega
  rw [h.issued_nums, hc]
  have h4 : first + (s.cursor - first) = s.cursor := by omega
  have h5 : (s.next - s.cursor) + (s.cursor - first) = s.next - first := by omega
  rw [← h5, ← List.range'_append_1 first (s.cursor - first) (s.next - s.cursor), h4]


/-- At a finished bounded run starting no later than the bound, the queue
holds exactly the blocks in the requested range and the cursor sits at the
bound. -/
theorem finished_bounded {first e : Nat} {s : State} (hfe : first ≤ e)
    (hinv : Inv (some e) first s) (hfin : finished (some e) s = true) :
    s.committed = List.range' first (e - first) ∧ s.cursor = e := by
  simp [finished, producerDone, consumerDone, withinEnd] at hfin
  obtain ⟨⟨hnext, hsp⟩, hcur, hjp⟩ := hfin
  have h1 : s.cursor ≤ max first e := hinv.cursor_bound e rfl
  have hmax : max first e = e := by omega
  have hcureq : s.cursor = e := by omega
  refine ⟨?_, hcureq⟩
  have h2 := hinv.cursor_eq
  have h3 : s.committed.length = e - first := by omega
  rw [committed_range hinv, h3]

/-- If the consumer holds a received handle, some continuation schedule
commits exactly that block next (unbounded mode). -/
theorem progress_join {first : Nat} {s : State} {n : Nat}
    (hinv : Inv none first s) (hjp : s.joinPend = some n) :
    ∃ ds, (run none s ds).committed = s.committed ++ [n] := by
  by_cases hf : n ∈ s.fin
  · refine ⟨[.joinCommit], ?_⟩
    simp [run, step, hjp, hf]
  · have hiss : n ∈ s.issued.map Prod.fst := by
      rw [hinv.issued_nums, ← hinv.pipe]
      simp [pipeline, hjp]
    refine ⟨[.fetchResolves n, .joinCommit], ?_⟩
    simp [run, step, hjp, hf, hiss]

/-- If the channel is nonempty and the consumer is idle, some continuation
schedule commits the channel's oldest block next (unbounded mode). -/
theorem progress_chan {first : Nat} {s : State} {n : Nat} {rest : List Nat}
    (hinv : Inv none first s) (hjp : s.joinPend = none) (hch : s.chan = n :: rest) :
    ∃ ds, (run none s ds).committed = s.committed ++ [n] := by
  have hstep : step none s .chanPop = some { s with chan := rest, joinPend := some n } := by
    simp [step, hch, hjp, withinEnd]
  obtain ⟨ds, hds⟩ := progress_join (step_inv hinv hstep) rfl
  exact ⟨.chanPop :: ds, by simp only [run, hstep]; exact hds⟩

/-- If only the producer's channel send is outstanding, some continuation
schedule commits that block next (unbounded mode). -/
theorem progress_send {first : Nat} {s : State} {n : Nat}
    (hinv : Inv none first s) (hjp : s.joinPend = none) (hch : s.chan = [])
    (hsp : s.sendPend = some n) :
    ∃ ds, (run none s ds).committed = s.committed ++ [n] := by
  have hlen : s.chan.length < MAX_CONCURRENT_REQUESTS := by
    rw [hch]; simp [MAX_CONCURRENT_REQUESTS]
  have hstep : step none s .chanPush
      = some { s with chan := s.chan ++ [n], sendPend := none } := by
    simp [step, hsp, hlen]
  have hch2 : ({ s with chan := s.chan ++ [n], sendPend := none } : State).chan
      = n :: [] := by
    simp [hch]
  obtain ⟨ds, hds⟩ := progress_chan (step_inv hinv hstep) hjp hch2
  exact ⟨.chanPush :: ds, by simp only [run, hstep]; exact hds⟩

/-- If the whole pipeline is idle, publishing a high enough upstream height
lets the producer issue the next block, which some continuation schedule
then commits (unbounded mode). -/
theorem progress_idle {first : Nat} {s : State}
    (hinv : Inv none first s) (hjp : s.joinPend = none) (hch : s.chan = [])
    (hsp : s.sendPend = none) :
    ∃ ds, (run none s ds).committed = s.committed ++ [s.next] := by
  have hstep1 : step none s (.setHeight (max s.height s.next))
      = some { s with height := max s.height s.next } := by
    simp [step, le_max_left]
  have hinv1 : Inv none first { s with height := max s.height s.next } :=
    step_inv hinv hstep1
  have hstep2 : step none { s with height := max s.height s.next } .spawnFetch
      = some { s with
          height := max s.height s.next
          sendPend := some s.next
          issued := s.issued ++ [(s.next, max s.height s.next)]
          next := s.next + 1 } := by
    simp [step, hsp, withinEnd, le_max_right]
  have hinv2 := step_inv hinv1 hstep2
  obtain ⟨ds, hds⟩ := progress_send hinv2 hjp hch rfl
  refine ⟨.setHeight (max s.height s.next) :: .spawnFetch :: ds, ?_⟩
  simp only [run, hstep1, hstep2]
  exact hds

/-- In unbounded mode, from every invariant state some continuation
schedule commits one more block: the pipeline can always keep fetching and
committing. -/
theorem progress_unbounded {first : Nat} {s : State} (hinv : Inv none first s) :
    ∃ ds, (run none s ds).committed.length = s.committed.length + 1 := by
  cases hjp : s.joinPend with
  | some n =>
    obtain ⟨ds, hds⟩ := progress_join hinv hjp
    exact ⟨ds, by rw [hds]; simp⟩
  | none =>
    cases hch : s.chan with
    | cons n rest =>
      obtain ⟨ds, hds⟩ := progress_chan hinv hjp hch
      exact ⟨ds, by rw [hds]; simp⟩
    | nil =>
      cases hsp : s.sendPend with
      | some n =>
        obtain ⟨ds, hds⟩ := progress_send hinv hjp hch hsp
        exact ⟨ds, by rw [hds]; simp⟩
      | none =>
        obtain ⟨ds, hds⟩ := progress_idle hinv hjp hch hsp
        exact ⟨ds, by rw [hds]; simp⟩

end FetchBlocks

open FetchBlocks

/-- C1: under every schedule (in particular every order of fetch
completions), the blocks appended to the payload queue form the strictly
increasing, gap-free initial segment starting at the initial cursor, and
the issuance history extends it: commit order is issuance order. -/
theorem fetch_blocks_commit_order (endBound : Option Nat) (first : Nat) (cs : List Choice) :
    (run endBound (init first) cs).committed
      = List.range' first (run endBound (init first) cs).committed.length ∧
    (run endBound (init first) cs).issued.map Prod.fst
      = (run endBound (init first) cs).committed
        ++ List.range' (run endBound (init first) cs).cursor
            ((run endBound (init first) cs).next - (run endBound (init first) cs).cursor) :=
  ⟨committed_range (reach_inv endBound first cs), issued_split (reach_inv endBound first cs)⟩

/-- C2 (amended): a bounded run that returns `Ok` with initial cursor
`first ≤ e` has committed exactly the blocks in `[first, e)` and its cursor
is `e`; if `first > e` the cursor stays at `first` (see the counterexample).
With no bound the loops never finish on their own, and one more block can
always be fetched and committed. -/
theorem fetch_blocks_bounded_and_unbounded :
    (∀ (first e : Nat) (cs : List Choice), first ≤ e →
        finished (some e) (run (some e) (init first) cs) = true →
        (run (some e) (init first) cs).committed = List.range' first (e - first) ∧
        (run (some e) (init first) cs).cursor = e) ∧
    (∀ (first : Nat) (cs : List Choice),
        finished none (run none (init first) cs) = false) ∧
    (∀ (first : Nat) (cs : List Choice), ∃ ds : List Choice,
        (run none (init first) (cs ++ ds)).committed.length
          = (run none (init first) cs).committed.length + 1) := by
  refine ⟨?_, ?_, ?_⟩
  · intro first e cs hfe hfin
    exact finished_bounded hfe (reach_inv (some e) first cs) hfin
  · intro first cs
    simp [finished, producerDone, withinEnd]
  · intro first cs
    obtain ⟨ds, hds⟩ := progress_unbounded (reach_inv none first cs)
    exact ⟨ds, by rw [run_append]; exact hds⟩

/-- C2 counterexample: with bound `e = 0` and initial cursor `first = 1`
the run returns `Ok` at once, and the final cursor is `1`, not `e`. -/
theorem fetch_blocks_bounded_counterexample :
    finished (some 0) (run (some 0) (init 1) []) = true ∧
    (run (some 0) (init 1) []).cursor ≠ 0 := by decide

/-- C2 witness: with `first = 0`, `e = 2` and a schedule that finishes the
run, exactly blocks `0` and `1` are committed and the cursor ends at `2`. -/
theorem fetch_blocks_bounded_and_unbounded_witness :
    (0 : Nat) ≤ 2 ∧
    finished (some 2) (run (some 2) (init 0)
      [Choice.setHeight 2, Choice.spawnFetch, Choice.chanPush, Choice.spawnFetch,
       Choice.chanPush, Choice.chanPop, Choice.fetchResolves 0, Choice.joinCommit,
       Choice.chanPop, Choice.fetchResolves 1, Choice.joinCommit]) = true ∧
    (run (some 2) (init 0)
      [Choice.setHeight 2, Choice.spawnFetch, Choice.chanPush, Choice.spawnFetch,
       Choice.chanPush, Choice.chanPop, Choice.fetchResolves 0, Choice.joinCommit,
       Choice.chanPop, Choice.fetchResolves 1, Choice.joinCommit]).committed
      = List.range' 0 2 ∧
    (run (some 2) (init 0)
      [Choice.setHeight 2, Choice.spawnFetch, Choice.chanPush, Choice.spawnFetch,
       Choice.chanPush, Choice.chanPop, Choice.fetchResolves 0, Choice.joinCommit,
       Choice.chanPop, Choice.fetchResolves 1, Choice.joinCommit]).cursor = 2 := by
  refine ⟨by decide, by decide, ?_, ?_⟩
  · exact (fetch_blocks_bounded_and_unbounded.1 0 2 _ (by decide) (by decide)).1
  · exact (fetch_blocks_bounded_and_unbounded.1 0 2 _ (by decide) (by decide)).2

/-- C3: the persistence wait performed before `fetch_blocks` returns
targets exactly the last committed block, and is skipped exactly when no
block was committed. -/
theorem fetch_blocks_persist_last (endBound : Option Nat) (first : Nat) (cs : List Choice) :
    persistTarget first (run endBound (init first) cs)
      = (run endBound (init first) cs).committed.getLast? := by
  have hinv := reach_inv endBound first cs
  have hc := committed_range hinv
  have he := hinv.cursor_eq
  rw [hc, List.getLast?_range']
  by_cases hlt : first < (run endBound (init first) cs).cursor
  · rw [persistTarget, if_pos hlt,
      if_neg (show ¬ (run endBound (init first) cs).committed.length = 0 by omega)]
    congr 1
    omega
  · rw [persistTarget, if_neg hlt,
      if_pos (show (run endBound (init first) cs).committed.length = 0 by omega)]

/-- C4 (amended): the channel never holds more than `W = 30` handles; the
requests issued but not yet received by the consumer never exceed `W + 1`
(one more may be spawned while its channel send is blocked), and the
requests issued but not yet committed never exceed `W + 2` (the consumer
may hold one more received handle while joining it). -/
theorem fetch_blocks_window_bounds (endBound : Option Nat) (first : Nat) (cs : List Choice) :
    (run endBound (init first) cs).chan.length ≤ MAX_CONCURRENT_REQUESTS ∧
    unconsumed (run endBound (init first) cs) ≤ MAX_CONCURRENT_REQUESTS + 1 ∧
    inFlight (run endBound (init first) cs) ≤ MAX_CONCURRENT_REQUESTS + 2 := by
  have hinv := reach_inv endBound first cs
  have hcc : (run endBound (init first) cs).chan.length ≤ 30 := hinv.chan_cap
  have hsp : (run endBound (init first) cs).sendPend.toList.length ≤ 1 := by
    cases (run endBound (init first) cs).sendPend <;> simp
  have hjp : (run endBound (init first) cs).joinPend.toList.length ≤ 1 := by
    cases (run endBound (init first) cs).joinPend <;> simp
  refine ⟨hinv.chan_cap, ?_, ?_⟩
  · show unconsumed (run endBound (init first) cs) ≤ 31
    rw [unconsumed]
    omega
  · show inFlight (run endBound (init first) cs) ≤ 32
    rw [inFlight]
    omega

/-- C4 counterexample: with the channel full at 30 handles the producer can
still have spawned one more fetch whose channel send is blocked, so 31
requests are issued and not yet received by the consumer. -/
theorem fetch_blocks_window_counterexample :
    MAX_CONCURRENT_REQUESTS < unconsumed (run none (init 0)
      (Choice.setHeight 40 ::
        (List.flatten (List.replicate 30 [Choice.spawnFetch, Choice.chanPush])
          ++ [Choice.spawnFetch]))) := by decide

/-- C5: every issued fetch was preceded by the completion of the wait on
the sync state: the height recorded when block `n` was issued is at least
`n`. -/
theorem fetch_issue_after_height_wait (endBound : Option Nat) (first : Nat)
    (cs : List Choice) (p : Nat × Nat)
    (hp : p ∈ (run endBound (init first) cs).issued) : p.1 ≤ p.2 :=
  (reach_inv endBound first cs).issued_hts p hp

/-- C5 witness: after the sync state reports height 3, the fetch for block
0 is issued with recorded height 3, and indeed 0 ≤ 3. -/
theorem fetch_issue_after_height_wait_witness :
    ((0, 3) : Nat × Nat) ∈ (run none (init 0)
      [Choice.setHeight 3, Choice.spawnFetch]).issued ∧
    ((0, 3) : Nat × Nat).1 ≤ ((0, 3) : Nat × Nat).2 :=
  ⟨by decide, fetch_issue_after_height_wait none 0
    [Choice.setHeight 3, Choice.spawnFetch] (0, 3) (by decide)⟩

/-- C9: if the queue cursor already satisfies `first ≥ e`, every schedule
leaves the run immediately finished with no fetch issued, no block
committed, the cursor unchanged, and no persistence wait. -/
theorem fetch_blocks_noop_when_caught_up (e first : Nat) (cs : List Choice)
    (hef : e ≤ first) :
    (run (some e) (init first) cs).committed = [] ∧
    (run (some e) (init first) cs).cursor = first ∧
    (run (some e) (init first) cs).issued = [] ∧
    persistTarget first (run (some e) (init first) cs) = none ∧
    finished (some e) (run (some e) (init first) cs) = true := by
  have hinv := reach_inv (some e) first cs
  have hnb := hinv.next_bound e rfl
  have hng := hinv.next_ge
  have hnext : (run (some e) (init first) cs).next = first := by omega
  have hpipe := hinv.pipe
  rw [hnext, Nat.sub_self, List.range'_zero] at hpipe
  simp only [pipeline, List.append_eq_nil] at hpipe
  obtain ⟨⟨⟨hcom, hjp⟩, hch⟩, hsp⟩ := hpipe
  have hiss := hinv.issued_nums
  rw [hnext, Nat.sub_self, List.range'_zero] at hiss
  have hissnil : (run (some e) (init first) cs).issued = [] := List.map_eq_nil_iff.mp hiss
  have hcur : (run (some e) (init first) cs).cursor = first := by
    have h1 := hinv.cursor_eq
    rw [hcom] at h1
    simpa using h1
  have hspn : (run (some e) (init first) cs).sendPend = none := by
    cases h : (run (some e) (init first) cs).sendPend with
    | none => rfl
    | some n => rw [h] at hsp; simp at hsp
  have hjpn : (run (some e) (init first) cs).joinPend = none := by
    cases h : (run (some e) (init first) cs).joinPend with
    | none => rfl
    | some n => rw [h] at hjp; simp at hjp
  refine ⟨hcom, hcur, hissnil, ?_, ?_⟩
  · rw [persistTarget, if_neg (by omega)]
  · have h1 : ¬ first < e := by omega
    simp [finished, producerDone, consumerDone, withinEnd, hnext, hcur, hspn, hjpn, h1]

/-- C9 witness: with bound 2 and initial cursor 5, even a schedule that
publishes a height and tries to spawn leaves the run finished, with
nothing committed and the cursor still 5. -/
theorem fetch_blocks_noop_when_caught_up_witness :
    (2 : Nat) ≤ 5 ∧
    (run (some 2) (init 5) [Choice.setHeight 9, Choice.spawnFetch]).committed = [] ∧
    (run (some 2) (init 5) [Choice.setHeight 9, Choice.spawnFetch]).cursor = 5 ∧
    (run (some 2) (init 5) [Choice.setHeight 9, Choice.spawnFetch]).issued = [] :=
  ⟨by decide,
    (fetch_blocks_noop_when_caught_up 2 5 _ (by decide)).1,
    (fetch_blocks_noop_when_caught_up 2 5 _ (by decide)).2.1,
    (fetch_blocks_noop_when_caught_up 2 5 _ (by decide)).2.2.1⟩
